import Mathlib

/-!
Verification of the WeekWise learning-management system.

The development shallowly embeds the server handlers of
`src/unnamed/part_001` (a Hono app storing subjects, weeks, user profiles
and progress records in a key-value store) together with the client-side
logic of `src/src/components/AdminDashboard.tsx` and
`src/src/components/StudentDashboard.tsx` that the specification talks
about: blank-link filtering before a create/update request, publish
toggling, the student-side `published` filter, YouTube URL parsing and
quiz scoring.
-/

namespace WeekWise

/-! ## Data model

Records mirror the JSON shapes produced by the server and consumed by the
dashboards (`AdminDashboard.tsx`, `StudentDashboard.tsx`, and the week
objects built in the `POST /make-server-4d2ff195/admin/weeks` handler). -/

/-- A content link `{url, title}` (`ContentItem` in `AdminDashboard.tsx`). -/
structure ContentItem where
  url : String
  title : String
  deriving DecidableEq, Repr

/-- Question type tag: `"mcq"` or `"short_answer"`. -/
inductive QuestionType where
  | mcq
  | shortAnswer
  deriving DecidableEq, Repr

/-- A practice question.  `type = none` denotes an untagged legacy question
(the JSON object has no `type` field). -/
structure Question where
  type : Option QuestionType
  question : String
  options : List String
  correctAnswer : Option Nat
  sampleAnswer : Option String
  deriving DecidableEq, Repr

/-- A stored week, as built by the `POST /admin/weeks` handler and merged by
the `PUT /admin/weeks/:id` handler.  `description = none` denotes an absent
field (the create handler never stores one; an update can add it). -/
structure Week where
  id : String
  subjectId : String
  weekNumber : Int
  title : String
  description : Option String
  videoLinks : List ContentItem
  audioLinks : List ContentItem
  pdfLinks : List ContentItem
  questions : List Question
  published : Bool
  createdAt : String
  deriving DecidableEq, Repr

/-- A stored subject (`POST /admin/subjects` handler). -/
structure Subject where
  id : String
  name : String
  description : String
  createdAt : String
  deriving DecidableEq, Repr

/-- A stored user profile (signup handlers); only `role` matters for the
admin gate. -/
structure Profile where
  id : String
  email : String
  name : String
  role : String
  createdAt : String
  deriving DecidableEq, Repr

/-- A progress record (`POST /progress` handler). -/
structure ProgressRecord where
  userId : String
  weekId : String
  completed : Bool
  lastAccessed : String
  deriving DecidableEq, Repr

/-! ## Key-value store -/

/-- `p` is a prefix of `s` as strings (checked on the underlying character
lists, which the kernel can evaluate). -/
def strPre (p s : String) : Bool := p.data.isPrefixOf s.data

/-- Modelled from the spec: the key-value store of `kv_store.tsx`, which the
server imports but which is not among the sources.  Spec section 4.1: a
durable mapping from string key to value supporting `get`, `set`
(unconditional overwrite), `del` (idempotent) and a prefix scan returning
the stored values whose key starts with the given prefix, in an unspecified
order (here: insertion order). -/
abbrev KV (α : Type) : Type := List (String × α)

/-- `kv.get`: the value stored under `k`, if any. -/
def kvGet {α : Type} (st : KV α) (k : String) : Option α :=
  (List.find? (fun e => e.1 == k) st).map (fun e => e.2)

/-- `kv.set`: unconditional overwrite; a fresh key is appended. -/
def kvSet {α : Type} : KV α → String → α → KV α
  | [], k, v => [(k, v)]
  | e :: es, k, v => if e.1 == k then (k, v) :: es else e :: kvSet es k v

/-- `kv.del`: idempotent delete. -/
def kvDel {α : Type} (st : KV α) (k : String) : KV α :=
  st.filter (fun e => !(e.1 == k))

/-- `kv.getByPrefix`: the values whose key starts with `p`. -/
def kvScan {α : Type} (st : KV α) (p : String) : List α :=
  (st.filter (fun e => strPre p e.1)).map (fun e => e.2)

/-- The whole store, split by the four disjoint key namespaces the server
uses (`users:`, `subjects:`, `weeks:`, `progress:`); keys keep their full
namespaced form. -/
structure AppState where
  users : KV Profile
  subjects : KV Subject
  weeks : KV Week
  progress : KV ProgressRecord

/-! ### Store lemmas -/

theorem kvGet_kvSet_self {α : Type} (st : KV α) (k : String) (v : α) :
    kvGet (kvSet st k v) k = some v := by
  induction st with
  | nil => simp [kvSet, kvGet, List.find?]
  | cons e es ih =>
    by_cases h : e.1 = k
    · simp [kvSet, h, kvGet, List.find?]
    · have hb : (e.1 == k) = false := by simpa using h
      simpa [kvSet, hb, kvGet, List.find?] using ih

theorem mem_kvSet_self {α : Type} (st : KV α) (k : String) (v : α) :
    (k, v) ∈ kvSet st k v := by
  induction st with
  | nil => simp [kvSet]
  | cons e es ih =>
    by_cases h : e.1 = k
    · simp [kvSet, h]
    · simp only [kvSet, beq_iff_eq, h, if_false]
      exact List.mem_cons_of_mem _ ih

theorem kvSet_fresh {α : Type} (st : KV α) (k : String) (v : α)
    (h : ∀ e ∈ st, e.1 ≠ k) : kvSet st k v = st ++ [(k, v)] := by
  induction st with
  | nil => simp [kvSet]
  | cons e es ih =>
    have he : e.1 ≠ k := h e (List.mem_cons_self _ _)
    simp only [kvSet, beq_iff_eq, he, if_false, List.cons_append]
    rw [ih (fun x hx => h x (List.mem_cons_of_mem _ hx))]

theorem kvSet_append_last {α : Type} (ws : KV α) (k : String) (w v : α)
    (h : ∀ e ∈ ws, e.1 ≠ k) :
    kvSet (ws ++ [(k, w)]) k v = ws ++ [(k, v)] := by
  induction ws with
  | nil => simp [kvSet]
  | cons e es ih =>
    have he : e.1 ≠ k := h e (List.mem_cons_self _ _)
    simp only [List.cons_append, kvSet, beq_iff_eq, he, if_false, List.append_eq]
    rw [ih (fun x hx => h x (List.mem_cons_of_mem _ hx))]

theorem mem_kvDel {α : Type} (st : KV α) (k : String) (e : String × α) :
    e ∈ kvDel st k ↔ e ∈ st ∧ e.1 ≠ k := by
  simp [kvDel, List.mem_filter]

theorem kvGet_kvDel_self {α : Type} (st : KV α) (k : String) :
    kvGet (kvDel st k) k = none := by
  have hfind : List.find? (fun e => e.1 == k) (kvDel st k) = none := by
    rw [List.find?_eq_none]
    intro e he
    rcases (mem_kvDel st k e).1 he with ⟨_, hne⟩
    simpa using hne
  simp [kvGet, hfind]

theorem mem_kvScan {α : Type} (st : KV α) (p : String) (v : α) :
    v ∈ kvScan st p ↔ ∃ k, (k, v) ∈ st ∧ strPre p k = true := by
  constructor
  · intro h
    rcases List.mem_map.1 h with ⟨e, he, hev⟩
    rcases List.mem_filter.1 he with ⟨hmem, hpre⟩
    refine ⟨e.1, ?_, hpre⟩
    rcases e with ⟨k0, v0⟩
    cases hev
    exact hmem
  · rintro ⟨k, hmem, hpre⟩
    exact List.mem_map.2 ⟨(k, v), List.mem_filter.2 ⟨hmem, hpre⟩, rfl⟩

theorem kvScan_append {α : Type} (st ts : KV α) (p : String) :
    kvScan (st ++ ts) p = kvScan st p ++ kvScan ts p := by
  simp [kvScan, List.filter_append]

theorem strPre_append (p x : String) : strPre p (p ++ x) = true := by
  rw [strPre, String.data_append]
  exact List.isPrefixOf_iff_prefix.2 (List.prefix_append p.data x.data)

/-! ## Sorting weeks

`weeks.sort((a, b) => a.weekNumber - b.weekNumber)` in the
`GET /weeks/:subjectId` handler (and the admin/student dashboards) is
JavaScript's stable in-place sort with a numeric key.  A stable sort by a
fixed key is uniquely determined by its input, so the insertion sort below
(inserting after equal keys) denotes it. -/

/-- Insert `w` after every element with a strictly smaller week number and
before all others. -/
def insertWeek (w : Week) : List Week → List Week
  | [] => [w]
  | x :: xs =>
    if x.weekNumber < w.weekNumber then x :: insertWeek w xs else w :: x :: xs

/-- Stable sort ascending by `weekNumber`. -/
def sortWeeks : List Week → List Week
  | [] => []
  | x :: xs => insertWeek x (sortWeeks xs)

theorem mem_insertWeek (w x : Week) (l : List Week) :
    x ∈ insertWeek w l ↔ x = w ∨ x ∈ l := by
  induction l with
  | nil => simp [insertWeek]
  | cons y ys ih =>
    by_cases h : y.weekNumber < w.weekNumber
    · simp only [insertWeek, h, if_true, List.mem_cons, ih]
      tauto
    · simp only [insertWeek, h, if_false, List.mem_cons]

theorem mem_sortWeeks (x : Week) (l : List Week) :
    x ∈ sortWeeks l ↔ x ∈ l := by
  induction l with
  | nil => simp [sortWeeks]
  | cons y ys ih =>
    simp [sortWeeks, mem_insertWeek, ih]

theorem pairwise_insertWeek (w : Week) (l : List Week)
    (h : l.Pairwise (fun a b => a.weekNumber ≤ b.weekNumber)) :
    (insertWeek w l).Pairwise (fun a b => a.weekNumber ≤ b.weekNumber) := by
  induction l with
  | nil => simp [insertWeek]
  | cons x xs ih =>
    rcases List.pairwise_cons.1 h with ⟨hx, hxs⟩
    by_cases hlt : x.weekNumber < w.weekNumber
    · simp only [insertWeek, hlt, if_true]
      refine List.pairwise_cons.2 ⟨?_, ih hxs⟩
      intro y hy
      rcases (mem_insertWeek w y xs).1 hy with rfl | hy'
      · exact le_of_lt hlt
      · exact hx y hy'
    · simp only [insertWeek, hlt, if_false]
      refine List.pairwise_cons.2 ⟨?_, h⟩
      intro y hy
      rcases List.mem_cons.1 hy with rfl | hy'
      · exact le_of_not_lt hlt
      · exact le_trans (le_of_not_lt hlt) (hx y hy')

theorem pairwise_sortWeeks (l : List Week) :
    (sortWeeks l).Pairwise (fun a b => a.weekNumber ≤ b.weekNumber) := by
  induction l with
  | nil => simp [sortWeeks]
  | cons x xs ih => exact pairwise_insertWeek x (sortWeeks xs) ih

theorem filter_insertWeek (w : Week) (l : List Week) (k : Int) :
    (insertWeek w l).filter (fun x => x.weekNumber == k) =
      if w.weekNumber = k then w :: l.filter (fun x => x.weekNumber == k)
      else l.filter (fun x => x.weekNumber == k) := by
  induction l with
  | nil =>
    by_cases hk : w.weekNumber = k <;> simp [insertWeek, hk]
  | cons x xs ih =>
    by_cases hlt : x.weekNumber < w.weekNumber
    · simp only [insertWeek, hlt, if_true]
      by_cases hk : w.weekNumber = k
      · have hxk : ¬ x.weekNumber = k := by
          intro hx
          exact absurd (hx.trans hk.symm ▸ hlt) (by simp [hx, hk])
        simp [List.filter_cons, hxk, ih, hk]
      · by_cases hxk : x.weekNumber = k <;>
          simp [List.filter_cons, hxk, ih, hk]
    · simp only [insertWeek, hlt, if_false]
      by_cases hk : w.weekNumber = k <;>
        simp [List.filter_cons, hk]

theorem filter_sortWeeks (l : List Week) (k : Int) :
    (sortWeeks l).filter (fun x => x.weekNumber == k) =
      l.filter (fun x => x.weekNumber == k) := by
  induction l with
  | nil => simp [sortWeeks]
  | cons x xs ih =>
    simp only [sortWeeks, filter_insertWeek, ih]
    by_cases hk : x.weekNumber = k <;> simp [List.filter_cons, hk]

/-! ## Request authorization

Every admin handler in the server starts with the same prelude: read the
bearer token from the `Authorization` header (401 if absent), verify it
against the identity provider (`supabase.auth.getUser`; 401 on failure),
load the caller's profile from `users:<id>` and require `role === 'admin'`
(403 otherwise).  `verify` abstracts the provider: it maps a valid access
token to the authenticated user's id. -/

inductive AuthResult where
  | unauthorized
  | forbidden
  | ok (userId : String)
  deriving DecidableEq, Repr

/-- The shared admin-route auth prelude. -/
def adminGate (token : Option String) (verify : String → Option String)
    (users : KV Profile) : AuthResult :=
  match token with
  | none => .unauthorized
  | some t =>
    match verify t with
    | none => .unauthorized
    | some uid =>
      match kvGet users ("users:" ++ uid) with
      | none => .forbidden
      | some prof => if prof.role == "admin" then .ok uid else .forbidden

/-! ## Server handlers

Each handler returns the HTTP status code it responds with together with
the store after the request.  Generated identifiers (`Date.now()` plus a
random suffix) and timestamps are passed in as arguments. -/

/-- JavaScript falsiness of a possibly missing string (`!x` for
`undefined`/`null` or the empty string). -/
def strFalsy : Option String → Bool
  | none => true
  | some s => s == ""

/-- JavaScript falsiness of a possibly missing number. -/
def intFalsy : Option Int → Bool
  | none => true
  | some n => n == 0

/-- Key under which a week is stored:
`weeks:<subjectId>:<weekId>`. -/
def weekKey (sid wid : String) : String :=
  "weeks:" ++ sid ++ ":" ++ wid

/-- Request body of `POST /admin/subjects`. -/
structure SubjectBody where
  name : Option String
  description : Option String
  deriving DecidableEq, Repr

/-- `POST /make-server-4d2ff195/admin/subjects`. -/
def postAdminSubjects (token : Option String) (verify : String → Option String)
    (body : SubjectBody) (subjectId now : String) (st : AppState) :
    Nat × AppState :=
  match adminGate token verify st.users with
  | .unauthorized => (401, st)
  | .forbidden => (403, st)
  | .ok _ =>
    if strFalsy body.name then (400, st)
    else
      let subject : Subject :=
        { id := subjectId, name := body.name.getD "",
          description := body.description.getD "", createdAt := now }
      (200, { st with
        subjects := kvSet st.subjects ("subjects:" ++ subjectId) subject })

/-- `GET /make-server-4d2ff195/subjects`. -/
def getSubjects (st : AppState) : List Subject :=
  kvScan st.subjects "subjects:"

/-- `DELETE /make-server-4d2ff195/admin/subjects/:id`: delete the subject
key, then scan the subject's week namespace and delete each week found
there by the key rebuilt from the stored week's `id`. -/
def deleteAdminSubjects (token : Option String) (verify : String → Option String)
    (subjectId : String) (st : AppState) : Nat × AppState :=
  match adminGate token verify st.users with
  | .unauthorized => (401, st)
  | .forbidden => (403, st)
  | .ok _ =>
    let subjects1 := kvDel st.subjects ("subjects:" ++ subjectId)
    let found := kvScan st.weeks ("weeks:" ++ subjectId ++ ":")
    let weeks1 := found.foldl
      (fun ws w => kvDel ws (weekKey subjectId w.id)) st.weeks
    (200, { st with subjects := subjects1, weeks := weeks1 })

/-- Request body of `POST /admin/weeks`; every field can be absent from the
JSON payload. -/
structure CreateWeekBody where
  subjectId : Option String
  weekNumber : Option Int
  title : Option String
  videoLinks : Option (List ContentItem)
  audioLinks : Option (List ContentItem)
  pdfLinks : Option (List ContentItem)
  questions : Option (List Question)
  published : Option Bool
  deriving DecidableEq, Repr

/-- `POST /make-server-4d2ff195/admin/weeks`.  `videoLinks || []` keeps any
array that is present (an empty array is truthy in JavaScript) and
substitutes `[]` only when the field is absent; `published || false`
likewise defaults to `false`. -/
def postAdminWeeks (token : Option String) (verify : String → Option String)
    (body : CreateWeekBody) (weekId now : String) (st : AppState) :
    Nat × AppState :=
  match adminGate token verify st.users with
  | .unauthorized => (401, st)
  | .forbidden => (403, st)
  | .ok _ =>
    if strFalsy body.subjectId || intFalsy body.weekNumber ||
        strFalsy body.title then (400, st)
    else
      let sid := body.subjectId.getD ""
      let week : Week :=
        { id := weekId, subjectId := sid,
          weekNumber := body.weekNumber.getD 0,
          title := body.title.getD "",
          description := none,
          videoLinks := body.videoLinks.getD [],
          audioLinks := body.audioLinks.getD [],
          pdfLinks := body.pdfLinks.getD [],
          questions := body.questions.getD [],
          published := body.published.getD false,
          createdAt := now }
      (200, { st with weeks := kvSet st.weeks (weekKey sid weekId) week })

/-- Partial week payload of `PUT /admin/weeks/:id`: `none` denotes a
top-level field absent from the JSON body. -/
structure WeekUpdate where
  id : Option String
  subjectId : Option String
  weekNumber : Option Int
  title : Option String
  description : Option String
  videoLinks : Option (List ContentItem)
  audioLinks : Option (List ContentItem)
  pdfLinks : Option (List ContentItem)
  questions : Option (List Question)
  published : Option Bool
  createdAt : Option String
  deriving DecidableEq, Repr

/-- The spread `{ ...week, ...updates }`: each top-level field present in
the payload replaces the stored value; absent fields are preserved. -/
def mergeWeek (w : Week) (u : WeekUpdate) : Week :=
  { id := u.id.getD w.id,
    subjectId := u.subjectId.getD w.subjectId,
    weekNumber := u.weekNumber.getD w.weekNumber,
    title := u.title.getD w.title,
    description := (match u.description with
      | some d => some d
      | none => w.description),
    videoLinks := u.videoLinks.getD w.videoLinks,
    audioLinks := u.audioLinks.getD w.audioLinks,
    pdfLinks := u.pdfLinks.getD w.pdfLinks,
    questions := u.questions.getD w.questions,
    published := u.published.getD w.published,
    createdAt := u.createdAt.getD w.createdAt }

/-- `PUT /make-server-4d2ff195/admin/weeks/:id`: scan all weeks, locate the
one whose stored `id` equals the path parameter, merge, and write back
under the key rebuilt from the previously stored week's `subjectId`. -/
def putAdminWeeks (token : Option String) (verify : String → Option String)
    (weekId : String) (updates : WeekUpdate) (st : AppState) :
    Nat × AppState :=
  match adminGate token verify st.users with
  | .unauthorized => (401, st)
  | .forbidden => (403, st)
  | .ok _ =>
    match (kvScan st.weeks "weeks:").find? (fun w => w.id == weekId) with
    | none => (404, st)
    | some week =>
      let updatedWeek := mergeWeek week updates
      (200, { st with
        weeks := kvSet st.weeks (weekKey week.subjectId weekId) updatedWeek })

/-- `DELETE /make-server-4d2ff195/admin/weeks/:id`. -/
def deleteAdminWeeks (token : Option String) (verify : String → Option String)
    (weekId : String) (st : AppState) : Nat × AppState :=
  match adminGate token verify st.users with
  | .unauthorized => (401, st)
  | .forbidden => (403, st)
  | .ok _ =>
    match (kvScan st.weeks "weeks:").find? (fun w => w.id == weekId) with
    | none => (404, st)
    | some week =>
      (200, { st with
        weeks := kvDel st.weeks (weekKey week.subjectId weekId) })

/-- `GET /make-server-4d2ff195/weeks/:subjectId` (public): prefix scan of
the subject's week namespace, sorted ascending by week number,
unfiltered. -/
def getWeeksHandler (subjectId : String) (st : AppState) : List Week :=
  sortWeeks (kvScan st.weeks ("weeks:" ++ subjectId ++ ":"))

/-- Request body of `POST /progress`. -/
structure ProgressBody where
  weekId : String
  completed : Option Bool
  deriving DecidableEq, Repr

/-- `POST /make-server-4d2ff195/progress`: requires any authenticated user;
unconditionally overwrites `progress:<userId>:<weekId>` with a record whose
`lastAccessed` is the current time. -/
def postProgress (token : Option String) (verify : String → Option String)
    (body : ProgressBody) (now : String) (st : AppState) : Nat × AppState :=
  match token with
  | none => (401, st)
  | some t =>
    match verify t with
    | none => (401, st)
    | some uid =>
      let record : ProgressRecord :=
        { userId := uid, weekId := body.weekId,
          completed := body.completed.getD false, lastAccessed := now }
      let key := "progress:" ++ uid ++ ":" ++ body.weekId
      (200, { st with progress := kvSet st.progress key record })

/-- `GET /make-server-4d2ff195/progress`: the caller's own records. -/
def getProgress (token : Option String) (verify : String → Option String)
    (st : AppState) : Nat × List ProgressRecord :=
  match token with
  | none => (401, [])
  | some t =>
    match verify t with
    | none => (401, [])
    | some uid => (200, kvScan st.progress ("progress:" ++ uid ++ ":"))

/-! ## Client-side operations (AdminDashboard.tsx, StudentDashboard.tsx) -/

/-- Falsiness of `s.trim()`: the trimmed string is empty exactly when every
character of `s` is whitespace. -/
def jsBlank (s : String) : Bool := s.data.all Char.isWhitespace

/-- The week form state of `AdminDashboard.tsx`. -/
structure WeekForm where
  weekNumber : Int
  title : String
  description : String
  published : Bool
  videoLinks : List ContentItem
  audioLinks : List ContentItem
  pdfLinks : List ContentItem
  questions : List Question
  deriving DecidableEq, Repr

/-- The `weekData` object built by `createOrUpdateWeek` in
`AdminDashboard.tsx`: the form spread together with the selected subject's
id, with the three link collections filtered by `l => l.url.trim()` so that
blank or whitespace-only URLs are dropped before the request is sent.  The
form's `description` is also sent but the create handler does not
destructure it, so it does not appear in `CreateWeekBody`. -/
def buildWeekData (form : WeekForm) (selectedId : String) : CreateWeekBody :=
  { subjectId := some selectedId,
    weekNumber := some form.weekNumber,
    title := some form.title,
    videoLinks := some (form.videoLinks.filter (fun l => !(jsBlank l.url))),
    audioLinks := some (form.audioLinks.filter (fun l => !(jsBlank l.url))),
    pdfLinks := some (form.pdfLinks.filter (fun l => !(jsBlank l.url))),
    questions := some form.questions,
    published := some form.published }

/-- The body `{ ...week, published: !week.published }` sent by
`togglePublish` in `AdminDashboard.tsx`: every stored field of the loaded
week is present in the payload (the `description` field only when the
stored week has one), with the published flag negated. -/
def toggleBody (w : Week) : WeekUpdate :=
  { id := some w.id,
    subjectId := some w.subjectId,
    weekNumber := some w.weekNumber,
    title := some w.title,
    description := w.description,
    videoLinks := some w.videoLinks,
    audioLinks := some w.audioLinks,
    pdfLinks := some w.pdfLinks,
    questions := some w.questions,
    published := some (!w.published),
    createdAt := some w.createdAt }

/-- `loadWeeks` in `StudentDashboard.tsx`: fetch `GET /weeks/:subjectId`,
keep only the published weeks, and sort ascending by week number. -/
def studentLoadWeeks (subjectId : String) (st : AppState) : List Week :=
  sortWeeks ((getWeeksHandler subjectId st).filter (fun w => w.published))

/-! ## YouTube ID extraction

`extractYouTubeId` in `StudentDashboard.tsx` matches the URL against

  `^.*((youtu.be\/)|(v\/)|(\/u\/\w\/)|(embed\/)|(watch\?))\??v?=?([^#&?]*).*`

and returns capture 7 when it has exactly 11 characters.  Backtracking
semantics: the leading greedy `.*` makes the alternation group match at the
LAST position where any alternative matches (everything after the group is
optional or unbounded, so the rest always succeeds); the alternatives start
with pairwise distinct characters, so at each position at most one of them
can match.  Capture 7 is then the maximal run of characters other than
`#`, `&`, `?` after optionally consuming one `?`, one `v` and one `=`. -/

/-- `\w`: ASCII letter, digit or underscore. -/
def isWordChar (c : Char) : Bool := c.isAlphanum || c == '_'

/-- Does one of the five alternatives of the regex group match at the head
of `cs`?  If so, how many characters does it consume?  (`youtu.be/` has a
bare `.` matching any character.) -/
def markerAt : List Char → Option Nat
  | 'y' :: 'o' :: 'u' :: 't' :: 'u' :: _ :: 'b' :: 'e' :: '/' :: _ => some 9
  | 'v' :: '/' :: _ => some 2
  | '/' :: 'u' :: '/' :: c :: '/' :: _ =>
    if isWordChar c then some 5 else none
  | 'e' :: 'm' :: 'b' :: 'e' :: 'd' :: '/' :: _ => some 6
  | 'w' :: 'a' :: 't' :: 'c' :: 'h' :: '?' :: _ => some 6
  | _ => none

/-- The remainder of the input after the alternation group at its last
matching position, or `none` when no position matches (in which case the
whole regex fails). -/
def lastMarkerSuffix : List Char → Option (List Char)
  | [] => none
  | c :: rest =>
    match lastMarkerSuffix rest with
    | some r => some r
    | none =>
      match markerAt (c :: rest) with
      | some n => some ((c :: rest).drop n)
      | none => none

/-- Consume one optional leading occurrence of `c`. -/
def dropOpt (c : Char) : List Char → List Char
  | [] => []
  | x :: xs => if x == c then xs else x :: xs

/-- Capture 7: after the group, `\??v?=?` then the maximal run of
characters outside `#&?`. -/
def tokenAfter (cs : List Char) : List Char :=
  (dropOpt '=' (dropOpt 'v' (dropOpt '?' cs))).takeWhile
    (fun c => !(c == '#' || c == '&' || c == '?'))

/-- `extractYouTubeId` in `StudentDashboard.tsx`. -/
def extractYouTubeId (url : String) : Option String :=
  match lastMarkerSuffix url.data with
  | none => none
  | some suffix =>
    let t := tokenAfter suffix
    if t.length == 11 then some (String.mk t) else none

/-! ## Quiz scoring

`calculateScore` in `StudentDashboard.tsx`. -/

/-- A value of the `answers` state map: either a selected MCQ option index
or a typed short-answer text. -/
inductive AnswerVal where
  | choice (n : Nat)
  | text (s : String)
  deriving DecidableEq, Repr

/-- JavaScript strict equality `answers[i] === q.correctAnswer` between a
possibly missing answer value and a possibly missing option index:
`undefined === undefined` is true, numbers compare by value, and a string
or a one-sided `undefined` never equals a number. -/
def answerMatches : Option AnswerVal → Option Nat → Bool
  | none, none => true
  | some (.choice n), some m => n == m
  | _, _ => false

/-- `q.type === "mcq" || !q.type`: an untagged legacy question counts as
MCQ. -/
def isMcq (q : Question) : Bool :=
  q.type == some QuestionType.mcq || q.type == none

/-- `calculateScore`: count the correct MCQ answers over the MCQ questions.
The source filters the MCQ questions and recovers each one's position in
the full list with `findIndex` under reference equality, which yields the
question's own index; enumerating before filtering denotes the same
computation. -/
def calculateScore (questions : List Question)
    (answers : Nat → Option AnswerVal) : Nat × Nat :=
  let mcq := questions.enum.filter (fun p => isMcq p.2)
  (mcq.countP (fun p => answerMatches (answers p.1) p.2.correctAnswer),
    mcq.length)

/-! ## Concrete fixtures used by the witnesses -/

/-- A concrete identity provider: `tok` belongs to the admin `u1`, `stok`
to the student `u2`, every other token is invalid. -/
def vfy0 : String → Option String :=
  fun t => if t == "tok" then some "u1" else
    if t == "stok" then some "u2" else none

/-- A concrete store holding an admin profile, a student profile, one
subject and two weeks under it. -/
def demoWeek1 : Week :=
  { id := "w1", subjectId := "s1", weekNumber := 2, title := "Algebra",
    description := none, videoLinks := [], audioLinks := [], pdfLinks := [],
    questions := [], published := true, createdAt := "t0" }

def demoWeek2 : Week :=
  { id := "w2", subjectId := "s1", weekNumber := 1, title := "Sets",
    description := none, videoLinks := [], audioLinks := [], pdfLinks := [],
    questions := [], published := false, createdAt := "t0" }

def st0 : AppState :=
  { users := [("users:u1", ⟨"u1", "a@x", "Ada", "admin", "t0"⟩),
              ("users:u2", ⟨"u2", "s@x", "Stu", "student", "t0"⟩)],
    subjects := [("subjects:s1", ⟨"s1", "Maths", "", "t0"⟩)],
    weeks := [("weeks:s1:w1", demoWeek1), ("weeks:s1:w2", demoWeek2)],
    progress := [] }

/-- An update payload with every field absent. -/
def emptyUpdate : WeekUpdate :=
  ⟨none, none, none, none, none, none, none, none, none, none, none⟩

/-- An empty create-subject body. -/
def sb0 : SubjectBody := ⟨some "Physics", none⟩

/-- A create-week body fixture. -/
def wb0 : CreateWeekBody :=
  ⟨some "s1", some 3, some "Calculus", none, none, none, none, none⟩

/-- The spec's three-MCQ scoring example, correct indices 0, 1, 2. -/
def demoQuestions : List Question :=
  [⟨some QuestionType.mcq, "q1", ["a", "b", "c", "d"], some 0, none⟩,
   ⟨some QuestionType.mcq, "q2", ["a", "b", "c", "d"], some 1, none⟩,
   ⟨some QuestionType.mcq, "q3", ["a", "b", "c", "d"], some 2, none⟩]

/-- The spec's submitted answers `0 ↦ 0, 1 ↦ 2, 2 ↦ 2`. -/
def demoAnswers : Nat → Option AnswerVal :=
  fun i => if i = 0 then some (.choice 0) else
    if i = 1 then some (.choice 2) else
    if i = 2 then some (.choice 2) else none

/-- A short-answer question fixture. -/
def demoShortAnswer : Question :=
  ⟨some QuestionType.shortAnswer, "explain", [], none, some "sample"⟩

/-! ## Claim theorems -/

/-- C3: the list returned by `GET /weeks/:subjectId` is sorted in ascending
order of `weekNumber` (every adjacent pair satisfies
`weekNumber[i] ≤ weekNumber[i+1]`), duplicates permitted, and the sort is
stable: for every week number the weeks carrying it appear in the same
order as in the pre-sort prefix scan. -/
theorem listWeeks_sorted_stable (subjectId : String) (st : AppState) :
    List.Chain' (fun a b => a.weekNumber ≤ b.weekNumber)
      (getWeeksHandler subjectId st) ∧
    (∀ k : Int,
      (getWeeksHandler subjectId st).filter (fun w => w.weekNumber == k) =
        (kvScan st.weeks ("weeks:" ++ subjectId ++ ":")).filter
          (fun w => w.weekNumber == k)) :=
  ⟨(pairwise_sortWeeks _).chain', fun k => filter_sortWeeks _ k⟩

/-- C7: YouTube-id extraction succeeds exactly when the regex's alternation
group (`youtu.be/`, `v/`, `/u/<w>/`, `embed/`, `watch?`) matches somewhere
in the URL and the token parsed after its last match is exactly 11
characters long; `https://youtu.be/dQw4w9WgXcQ` yields `dQw4w9WgXcQ`, an
extracted id always has 11 characters, and a URL whose trailing token has
10 characters (such as `https://youtu.be/dQw4w9WgXc`) is unrecognized. -/
theorem extractYouTubeId_spec :
    extractYouTubeId "https://youtu.be/dQw4w9WgXcQ" = some "dQw4w9WgXcQ" ∧
    (∀ url id, extractYouTubeId url = some id → id.length = 11) ∧
    (∀ url suffix, lastMarkerSuffix url.data = some suffix →
      ((tokenAfter suffix).length = 11 →
        extractYouTubeId url = some (String.mk (tokenAfter suffix))) ∧
      ((tokenAfter suffix).length ≠ 11 → extractYouTubeId url = none)) ∧
    (∀ url, lastMarkerSuffix url.data = none → extractYouTubeId url = none) ∧
    extractYouTubeId "https://youtu.be/dQw4w9WgXc" = none := by
  refine ⟨by decide, ?_, ?_, ?_, by decide⟩
  · intro url id h
    cases hs : lastMarkerSuffix url.data with
    | none => simp [extractYouTubeId, hs] at h
    | some suffix =>
      by_cases hl : (tokenAfter suffix).length = 11
      · have hid : extractYouTubeId url =
            some (String.mk (tokenAfter suffix)) := by
          simp [extractYouTubeId, hs, hl]
        rw [h] at hid
        have hm : id = String.mk (tokenAfter suffix) := by
          injection hid
        subst hm
        exact hl
      · simp [extractYouTubeId, hs, hl] at h
  · intro url suffix hs
    constructor
    · intro hl
      simp [extractYouTubeId, hs, hl]
    · intro hl
      simp [extractYouTubeId, hs, hl]
  · intro url hs
    simp [extractYouTubeId, hs]

/-- Each hypothesis of `extractYouTubeId_spec` discharged at a concrete
input: the 11-character necessity at the example URL and the
no-marker case at a plain URL. -/
theorem extractYouTubeId_spec_witness :
    ("dQw4w9WgXcQ" : String).length = 11 ∧
    extractYouTubeId "https://nothing.example" = none :=
  ⟨extractYouTubeId_spec.2.1 "https://youtu.be/dQw4w9WgXcQ" "dQw4w9WgXcQ"
      (by decide),
    extractYouTubeId_spec.2.2.2.1 "https://nothing.example" (by decide)⟩

/-- Length of the MCQ positions is the number of MCQ questions. -/
theorem length_filter_enumFrom (qs : List Question) (n : Nat) :
    ((List.enumFrom n qs).filter (fun p => isMcq p.2)).length =
      (qs.filter isMcq).length := by
  induction qs generalizing n with
  | nil => simp
  | cons q qs ih =>
    by_cases hq : isMcq q = true <;>
      simp [List.enumFrom_cons, List.filter_cons, hq, ih]

/-- C8: an MCQ answer is correct iff the selected option index equals the
question's `correctAnswer`; the score is the count of correct MCQ answers
over the count of MCQ questions, an untagged question counts as MCQ, a
short-answer question is excluded from numerator and denominator, and the
spec's three-question example scores 2/3. -/
theorem calculateScore_spec :
    (∀ qs ans q, q.type = some QuestionType.shortAnswer →
      calculateScore (qs ++ [q]) ans = calculateScore qs ans) ∧
    (∀ qs ans, (calculateScore qs ans).2 = (qs.filter isMcq).length) ∧
    (∀ q, q.type = none ∨ q.type = some QuestionType.mcq → isMcq q = true) ∧
    (∀ a m, answerMatches (some (.choice a)) (some m) = true ↔ a = m) ∧
    calculateScore demoQuestions demoAnswers = (2, 3) := by
  refine ⟨?_, ?_, ?_, ?_, by decide⟩
  · intro qs ans q hq
    have hmcq : isMcq q = false := by simp [isMcq, hq]
    simp [calculateScore, List.enum_append, List.filter_append,
      List.enumFrom_cons, List.filter_cons, hmcq]
  · intro qs ans
    simpa [calculateScore, List.enum] using length_filter_enumFrom qs 0
  · intro q hq
    rcases hq with h | h <;> simp [isMcq, h]
  · intro a m
    simp [answerMatches]

/-- `calculateScore_spec` instantiated: appending a short-answer question
to the spec example changes neither numerator nor denominator, and an
untagged question counts as MCQ. -/
theorem calculateScore_spec_witness :
    calculateScore (demoQuestions ++ [demoShortAnswer]) demoAnswers =
      calculateScore demoQuestions demoAnswers ∧
    isMcq ⟨none, "legacy", [], none, none⟩ = true :=
  ⟨calculateScore_spec.1 demoQuestions demoAnswers demoShortAnswer rfl,
    calculateScore_spec.2.2.1 ⟨none, "legacy", [], none, none⟩ (Or.inl rfl)⟩

/-- C6: every admin-gated endpoint (create/delete subject,
create/update/delete week) responds 401 exactly when the bearer token is
missing or fails identity-provider verification and 403 exactly when the
token verifies but the caller's profile is missing or its role is not
`admin`; in both cases the handler returns the store unchanged, so no
admin-gated mutation is performed. -/
theorem admin_gate_statuses (token : Option String)
    (verify : String → Option String) (st : AppState) (sb : SubjectBody)
    (wb : CreateWeekBody) (u : WeekUpdate) (sid wid now : String) :
    ((token = none ∨ ∃ t, token = some t ∧ verify t = none) ↔
      adminGate token verify st.users = .unauthorized) ∧
    ((∃ t uid, token = some t ∧ verify t = some uid ∧
        (kvGet st.users ("users:" ++ uid) = none ∨
          ∃ p, kvGet st.users ("users:" ++ uid) = some p ∧
            p.role ≠ "admin")) ↔
      adminGate token verify st.users = .forbidden) ∧
    (adminGate token verify st.users = .unauthorized →
      postAdminSubjects token verify sb sid now st = (401, st) ∧
      deleteAdminSubjects token verify sid st = (401, st) ∧
      postAdminWeeks token verify wb wid now st = (401, st) ∧
      putAdminWeeks token verify wid u st = (401, st) ∧
      deleteAdminWeeks token verify wid st = (401, st)) ∧
    (adminGate token verify st.users = .forbidden →
      postAdminSubjects token verify sb sid now st = (403, st) ∧
      deleteAdminSubjects token verify sid st = (403, st) ∧
      postAdminWeeks token verify wb wid now st = (403, st) ∧
      putAdminWeeks token verify wid u st = (403, st) ∧
      deleteAdminWeeks token verify wid st = (403, st)) := by
  refine ⟨?_, ?_, ?_, ?_⟩
  · cases token with
    | none => simp [adminGate]
    | some t =>
      cases hv : verify t with
      | none => simp [adminGate, hv]
      | some uid =>
        cases hp : kvGet st.users ("users:" ++ uid) with
        | none => simp [adminGate, hv, hp]
        | some p =>
          by_cases hr : p.role = "admin" <;> simp [adminGate, hv, hp, hr]
  · cases token with
    | none => simp [adminGate]
    | some t =>
      cases hv : verify t with
      | none => simp [adminGate, hv]
      | some uid =>
        cases hp : kvGet st.users ("users:" ++ uid) with
        | none => simp [adminGate, hv, hp]
        | some p =>
          by_cases hr : p.role = "admin" <;> simp [adminGate, hv, hp, hr]
  · intro h
    refine ⟨?_, ?_, ?_, ?_, ?_⟩ <;>
      simp [postAdminSubjects, deleteAdminSubjects, postAdminWeeks,
        putAdminWeeks, deleteAdminWeeks, h]
  · intro h
    refine ⟨?_, ?_, ?_, ?_, ?_⟩ <;>
      simp [postAdminSubjects, deleteAdminSubjects, postAdminWeeks,
        putAdminWeeks, deleteAdminWeeks, h]

/-- `admin_gate_statuses` instantiated: a missing token gives 401 and a
valid student token gives 403 on concrete requests, leaving the store
untouched. -/
theorem admin_gate_statuses_witness :
    postAdminSubjects none vfy0 sb0 "s9" "t1" st0 = (401, st0) ∧
    putAdminWeeks (some "stok") vfy0 "w1" emptyUpdate st0 = (403, st0) :=
  ⟨((admin_gate_statuses none vfy0 st0 sb0 wb0 emptyUpdate "s9" "w1"
        "t1").2.2.1 (by decide)).1,
    ((admin_gate_statuses (some "stok") vfy0 st0 sb0 wb0 emptyUpdate "s9"
        "w1" "t1").2.2.2 (by decide)).2.2.2.1⟩

/-- The week record the create handler builds and stores when the body
came from the admin form (`buildWeekData`). -/
def formWeek (form : WeekForm) (sid weekId now : String) : Week :=
  { id := weekId, subjectId := sid,
    weekNumber := form.weekNumber,
    title := form.title,
    description := none,
    videoLinks := form.videoLinks.filter (fun l => !(jsBlank l.url)),
    audioLinks := form.audioLinks.filter (fun l => !(jsBlank l.url)),
    pdfLinks := form.pdfLinks.filter (fun l => !(jsBlank l.url)),
    questions := form.questions,
    published := form.published,
    createdAt := now }

/-- Store update shorthand: write one week record. -/
def setWeek (st : AppState) (k : String) (w : Week) : AppState :=
  { st with weeks := kvSet st.weeks k w }

/-- The admin-dashboard create flow reduces to one store write of
`formWeek`. -/
theorem postAdminWeeks_form_eq (token : Option String)
    (verify : String → Option String) (st : AppState) (form : WeekForm)
    (sid weekId now uid : String)
    (hauth : adminGate token verify st.users = .ok uid)
    (hsid : sid ≠ "") (htitle : form.title ≠ "")
    (hnum : form.weekNumber ≠ 0) :
    postAdminWeeks token verify (buildWeekData form sid) weekId now st =
      (200, setWeek st (weekKey sid weekId)
        (formWeek form sid weekId now)) := by
  simp [postAdminWeeks, hauth, buildWeekData, strFalsy, intFalsy,
    hsid, htitle, hnum, formWeek, setWeek]

/-- C1: a create-week request issued through the admin dashboard drops
every content-link entry whose URL is blank or whitespace-only in
`createOrUpdateWeek` before the request is sent, so the week the server
persists holds only non-blank entries; in particular a form whose
`videoLinks` are `[{url:"  "}, {url:"http://x"}]` is stored with exactly
the one non-blank entry. -/
theorem createWeek_filters_blank_links (token : Option String)
    (verify : String → Option String) (st : AppState) (form : WeekForm)
    (sid weekId now uid : String)
    (hauth : adminGate token verify st.users = .ok uid)
    (hsid : sid ≠ "") (htitle : form.title ≠ "")
    (hnum : form.weekNumber ≠ 0) :
    (postAdminWeeks token verify (buildWeekData form sid) weekId now
        st).1 = 200 ∧
    ∃ w : Week,
      kvGet (postAdminWeeks token verify (buildWeekData form sid) weekId now
          st).2.weeks (weekKey sid weekId) = some w ∧
      w.videoLinks = form.videoLinks.filter (fun l => !(jsBlank l.url)) ∧
      (∀ l ∈ w.videoLinks, jsBlank l.url = false) ∧
      (form.videoLinks = [⟨"  ", ""⟩, ⟨"http://x", ""⟩] →
        w.videoLinks = [⟨"http://x", ""⟩]) := by
  have h200 := postAdminWeeks_form_eq token verify st form sid weekId now
    uid hauth hsid htitle hnum
  refine ⟨by rw [h200], ?_⟩
  refine ⟨formWeek form sid weekId now, ?_, rfl, ?_, ?_⟩
  · rw [h200]
    exact kvGet_kvSet_self _ _ _
  · intro l hl
    have := (List.mem_filter.1 hl).2
    simpa using this
  · intro hconc
    simp only [formWeek, hconc]
    decide

/-- `createWeek_filters_blank_links` instantiated on the spec's example
payload, against the concrete admin store. -/
theorem createWeek_filters_blank_links_witness :
    ∃ w : Week,
      kvGet (postAdminWeeks (some "tok") vfy0
          (buildWeekData
            { weekNumber := 1, title := "Intro", description := "",
              published := false,
              videoLinks := [⟨"  ", ""⟩, ⟨"http://x", ""⟩],
              audioLinks := [], pdfLinks := [], questions := [] } "s1")
          "w9" "t1" st0).2.weeks (weekKey "s1" "w9") = some w ∧
      w.videoLinks = [⟨"http://x", ""⟩] := by
  obtain ⟨-, w, hget, -, -, hconc⟩ :=
    createWeek_filters_blank_links (some "tok") vfy0 st0
      { weekNumber := 1, title := "Intro", description := "",
        published := false,
        videoLinks := [⟨"  ", ""⟩, ⟨"http://x", ""⟩],
        audioLinks := [], pdfLinks := [], questions := [] }
      "s1" "w9" "t1" "u1" (by decide) (by decide) (by decide) (by decide)
  exact ⟨w, hget, hconc rfl⟩

/-! ### Key-uniqueness lemmas for the progress upsert -/

theorem filter_eq_nil_of_key_absent {α : Type} (st : KV α) (k : String)
    (h : k ∉ st.map Prod.fst) :
    st.filter (fun e => e.1 == k) = [] := by
  induction st with
  | nil => rfl
  | cons e es ih =>
    have hne : e.1 ≠ k := by
      intro heq
      exact h (by simp [heq])
    simp only [List.filter_cons, beq_iff_eq, hne, decide_False,
      Bool.false_eq_true, if_false]
    exact ih (fun hm => h (List.mem_cons_of_mem _ hm))

theorem keys_kvSet_sub {α : Type} (st : KV α) (k a : String) (v : α)
    (h : a ∈ (kvSet st k v).map Prod.fst) :
    a = k ∨ a ∈ st.map Prod.fst := by
  induction st with
  | nil => simpa [kvSet] using h
  | cons e es ih =>
    by_cases he : e.1 = k
    · simp only [kvSet, beq_iff_eq, he, if_true] at h
      rcases List.mem_cons.1 h with h1 | h1
      · exact Or.inl h1
      · exact Or.inr (by simp [List.mem_cons]; right; simpa using h1)
    · simp only [kvSet, beq_iff_eq, he, if_false, List.map_cons] at h
      rcases List.mem_cons.1 h with h1 | h1
      · exact Or.inr (by simp [h1])
      · rcases ih h1 with h2 | h2
        · exact Or.inl h2
        · exact Or.inr (by simp [List.mem_cons]; right; exact (by simpa using h2))

theorem nodup_keys_kvSet {α : Type} (st : KV α) (k : String) (v : α)
    (h : (st.map Prod.fst).Nodup) :
    ((kvSet st k v).map Prod.fst).Nodup := by
  induction st with
  | nil => simp [kvSet]
  | cons e es ih =>
    rw [List.map_cons] at h
    rcases List.nodup_cons.1 h with ⟨hnotin, hes⟩
    by_cases he : e.1 = k
    · simp only [kvSet, beq_iff_eq, he, if_true, List.map_cons]
      exact List.nodup_cons.2 ⟨by rw [← he]; exact hnotin, hes⟩
    · simp only [kvSet, beq_iff_eq, he, if_false, List.map_cons]
      refine List.nodup_cons.2 ⟨?_, ih hes⟩
      intro hmem
      rcases keys_kvSet_sub es k e.1 v hmem with h1 | h1
      · exact he h1
      · exact hnotin h1

theorem filter_kvSet_self {α : Type} (st : KV α) (k : String) (v : α)
    (h : (st.map Prod.fst).Nodup) :
    (kvSet st k v).filter (fun e => e.1 == k) = [(k, v)] := by
  induction st with
  | nil => simp [kvSet]
  | cons e es ih =>
    rw [List.map_cons] at h
    rcases List.nodup_cons.1 h with ⟨hnotin, hes⟩
    by_cases he : e.1 = k
    · have habs : k ∉ es.map Prod.fst := by rw [← he]; exact hnotin
      simp [kvSet, he, List.filter_cons,
        filter_eq_nil_of_key_absent es k habs]
    · simp [kvSet, he, List.filter_cons, ih hes]

/-- C5: progress recording is a last-write-wins upsert keyed by
(userId, weekId): recording `completed=false` at time `t1` and then
`completed=true` at time `t2` leaves exactly one record under
`progress:<s>:<w>`, with `completed = true`, and `lastAccessed` is set to
the call's current time on every call regardless of whether `completed`
changed. -/
theorem recordProgress_upsert (verify : String → Option String)
    (st : AppState) (tk uid w t1 t2 : String)
    (hver : verify tk = some uid)
    (hnd : (st.progress.map Prod.fst).Nodup) :
    ∃ st1 st2 : AppState,
      postProgress (some tk) verify ⟨w, some false⟩ t1 st = (200, st1) ∧
      postProgress (some tk) verify ⟨w, some true⟩ t2 st1 = (200, st2) ∧
      kvGet st1.progress ("progress:" ++ uid ++ ":" ++ w) =
        some ⟨uid, w, false, t1⟩ ∧
      kvGet st2.progress ("progress:" ++ uid ++ ":" ++ w) =
        some ⟨uid, w, true, t2⟩ ∧
      st2.progress.filter
          (fun e => e.1 == "progress:" ++ uid ++ ":" ++ w) =
        [("progress:" ++ uid ++ ":" ++ w, ⟨uid, w, true, t2⟩)] := by
  refine ⟨(postProgress (some tk) verify ⟨w, some false⟩ t1 st).2,
    (postProgress (some tk) verify ⟨w, some true⟩ t2
      (postProgress (some tk) verify ⟨w, some false⟩ t1 st).2).2,
    ?_, ?_, ?_, ?_, ?_⟩
  · simp [postProgress, hver]
  · simp [postProgress, hver]
  · simp only [postProgress, hver]
    exact kvGet_kvSet_self _ _ _
  · simp only [postProgress, hver]
    exact kvGet_kvSet_self _ _ _
  · simp only [postProgress, hver]
    exact filter_kvSet_self _ _ _ (nodup_keys_kvSet _ _ _ hnd)

/-- `recordProgress_upsert` instantiated for the student `u2` on week `w1`
against the concrete store. -/
theorem recordProgress_upsert_witness :
    ∃ st1 st2 : AppState,
      postProgress (some "stok") vfy0 ⟨"w1", some false⟩ "t1" st0 =
        (200, st1) ∧
      postProgress (some "stok") vfy0 ⟨"w1", some true⟩ "t2" st1 =
        (200, st2) ∧
      kvGet st1.progress "progress:u2:w1" = some ⟨"u2", "w1", false, "t1"⟩ ∧
      kvGet st2.progress "progress:u2:w1" = some ⟨"u2", "w1", true, "t2"⟩ ∧
      st2.progress.filter (fun e => e.1 == "progress:u2:w1") =
        [("progress:u2:w1", ⟨"u2", "w1", true, "t2"⟩)] :=
  recordProgress_upsert vfy0 st0 "stok" "u2" "w1" "t1" "t2"
    (by decide) (by decide)

/-- A `kvSet` under a key outside a prefix leaves that prefix's scan
unchanged. -/
theorem kvScan_kvSet_of_not_pre {α : Type} (st : KV α) (k p : String)
    (v : α) (h : strPre p k = false) :
    kvScan (kvSet st k v) p = kvScan st p := by
  induction st with
  | nil => simp [kvSet, kvScan, h]
  | cons e es ih =>
    by_cases he : e.1 = k
    · simp only [kvSet, beq_iff_eq, he, if_true]
      simp [kvScan, List.filter_cons, he, h]
    · simp only [kvSet, beq_iff_eq, he, if_false]
      simp only [kvScan, List.filter_cons] at ih ⊢
      by_cases hp : strPre p e.1 = true <;> simp [hp, ih]

/-- C9: `PUT /admin/weeks/:id` performs a shallow merge of the update
payload over the stored week and writes exactly the merged record back:
every top-level field present in the payload (including the whole
`videoLinks` and `questions` arrays) fully replaces the stored value, and
every absent field is preserved unchanged. -/
theorem updateWeek_shallow_merge (w : Week) (u : WeekUpdate)
    (token : Option String) (verify : String → Option String)
    (st : AppState) (wid uid : String)
    (hauth : adminGate token verify st.users = .ok uid)
    (hfind : (kvScan st.weeks "weeks:").find? (fun x => x.id == wid) =
      some w) :
    putAdminWeeks token verify wid u st =
      (200, setWeek st (weekKey w.subjectId wid) (mergeWeek w u)) ∧
    (∀ x, u.id = some x → (mergeWeek w u).id = x) ∧
    (u.id = none → (mergeWeek w u).id = w.id) ∧
    (∀ x, u.subjectId = some x → (mergeWeek w u).subjectId = x) ∧
    (u.subjectId = none → (mergeWeek w u).subjectId = w.subjectId) ∧
    (∀ x, u.weekNumber = some x → (mergeWeek w u).weekNumber = x) ∧
    (u.weekNumber = none → (mergeWeek w u).weekNumber = w.weekNumber) ∧
    (∀ x, u.title = some x → (mergeWeek w u).title = x) ∧
    (u.title = none → (mergeWeek w u).title = w.title) ∧
    (∀ x, u.description = some x → (mergeWeek w u).description = some x) ∧
    (u.description = none → (mergeWeek w u).description = w.description) ∧
    (∀ x, u.videoLinks = some x → (mergeWeek w u).videoLinks = x) ∧
    (u.videoLinks = none → (mergeWeek w u).videoLinks = w.videoLinks) ∧
    (∀ x, u.audioLinks = some x → (mergeWeek w u).audioLinks = x) ∧
    (u.audioLinks = none → (mergeWeek w u).audioLinks = w.audioLinks) ∧
    (∀ x, u.pdfLinks = some x → (mergeWeek w u).pdfLinks = x) ∧
    (u.pdfLinks = none → (mergeWeek w u).pdfLinks = w.pdfLinks) ∧
    (∀ x, u.questions = some x → (mergeWeek w u).questions = x) ∧
    (u.questions = none → (mergeWeek w u).questions = w.questions) ∧
    (∀ x, u.published = some x → (mergeWeek w u).published = x) ∧
    (u.published = none → (mergeWeek w u).published = w.published) ∧
    (∀ x, u.createdAt = some x → (mergeWeek w u).createdAt = x) ∧
    (u.createdAt = none → (mergeWeek w u).createdAt = w.createdAt) := by
  refine ⟨?_, ?_, ?_, ?_, ?_, ?_, ?_, ?_, ?_, ?_, ?_, ?_, ?_, ?_, ?_, ?_,
    ?_, ?_, ?_, ?_, ?_, ?_, ?_⟩
  · simp [putAdminWeeks, hauth, hfind, setWeek]
  all_goals intro x
  all_goals first
    | (intro hx; simp [mergeWeek, hx])
    | (revert x; intro hx; simp [mergeWeek, hx])

/-- `updateWeek_shallow_merge` instantiated: a payload carrying only a new
title replaces the title and preserves the stored `videoLinks` of the
concrete week `w1`. -/
theorem updateWeek_shallow_merge_witness :
    (mergeWeek demoWeek1
      { emptyUpdate with title := some "New title" }).title = "New title" ∧
    (mergeWeek demoWeek1
        { emptyUpdate with title := some "New title" }).videoLinks =
      demoWeek1.videoLinks :=
  ⟨(updateWeek_shallow_merge demoWeek1
      { emptyUpdate with title := some "New title" } (some "tok") vfy0 st0
      "w1" "u1" (by decide) (by decide)).2.2.2.2.2.2.2.1 "New title" rfl,
    (updateWeek_shallow_merge demoWeek1
      { emptyUpdate with title := some "New title" } (some "tok") vfy0 st0
      "w1" "u1" (by decide) (by decide)).2.2.2.2.2.2.2.2.2.2.2.2.1 rfl⟩

/-- C10: `PUT /admin/weeks/:id` never changes the storage key of the week
it updates: even when the payload carries a different `subjectId`, the
merged record is written back under the key built from the previously
stored week's `subjectId` and the addressed week id, so the stored
`subjectId` field changes while the week remains stored — and listed by
`GET /weeks/:subjectId` — under its original subject's namespace, and the
new subject's namespace is untouched. -/
theorem updateWeek_keeps_storage_key (token : Option String)
    (verify : String → Option String) (st : AppState)
    (s s2 wid uid : String) (v : Week) (u : WeekUpdate)
    (hauth : adminGate token verify st.users = .ok uid)
    (hfind : (kvScan st.weeks "weeks:").find? (fun x => x.id == wid) =
      some v)
    (hsid : v.subjectId = s)
    (hu : u.subjectId = some s2)
    (hop : strPre ("weeks:" ++ s2 ++ ":") (weekKey s wid) = false) :
    (putAdminWeeks token verify wid u st).2.weeks =
      kvSet st.weeks (weekKey s wid) (mergeWeek v u) ∧
    kvGet (putAdminWeeks token verify wid u st).2.weeks (weekKey s wid) =
      some (mergeWeek v u) ∧
    (mergeWeek v u).subjectId = s2 ∧
    mergeWeek v u ∈
      getWeeksHandler s (putAdminWeeks token verify wid u st).2 ∧
    kvScan (putAdminWeeks token verify wid u st).2.weeks
        ("weeks:" ++ s2 ++ ":") =
      kvScan st.weeks ("weeks:" ++ s2 ++ ":") := by
  have hw : (putAdminWeeks token verify wid u st).2.weeks =
      kvSet st.weeks (weekKey s wid) (mergeWeek v u) := by
    simp [putAdminWeeks, hauth, hfind, hsid]
  refine ⟨hw, ?_, by simp [mergeWeek, hu], ?_, ?_⟩
  · rw [hw]
    exact kvGet_kvSet_self _ _ _
  · rw [getWeeksHandler, mem_sortWeeks, hw]
    refine (mem_kvScan _ _ _).2 ⟨weekKey s wid, mem_kvSet_self _ _ _, ?_⟩
    exact strPre_append ("weeks:" ++ s ++ ":") wid
  · rw [hw]
    exact kvScan_kvSet_of_not_pre _ _ _ _ hop

/-- Membership after folding week deletions over the scan result. -/
theorem mem_foldl_kvDel (sid : String) (vs : List Week) (ws : KV Week)
    (e : String × Week) :
    e ∈ vs.foldl (fun a w => kvDel a (weekKey sid w.id)) ws ↔
      e ∈ ws ∧ ∀ w ∈ vs, e.1 ≠ weekKey sid w.id := by
  induction vs generalizing ws with
  | nil => simp
  | cons w vs ih =>
    rw [List.foldl_cons, ih]
    constructor
    · rintro ⟨hm, hall⟩
      rcases (mem_kvDel ws (weekKey sid w.id) e).1 hm with ⟨hmem, hne⟩
      refine ⟨hmem, ?_⟩
      intro x hx
      rcases List.mem_cons.1 hx with rfl | hx'
      · exact hne
      · exact hall x hx'
    · rintro ⟨hm, hall⟩
      refine ⟨(mem_kvDel ws (weekKey sid w.id) e).2
        ⟨hm, hall w (List.mem_cons_self _ _)⟩, ?_⟩
      intro x hx
      exact hall x (List.mem_cons_of_mem _ hx)

/-- C2: after an admin-authorized `DELETE /admin/subjects/:id` on a store
whose week namespace for that subject is well formed (each entry's key is
the one rebuilt from its stored `id`), the subject is absent from the
subject listing and the subject's week namespace is empty, so
`GET /weeks/:subjectId` and the student listing return the empty list:
every week stored under that subject was deleted in the same operation. -/
theorem deleteSubject_cascades (token : Option String)
    (verify : String → Option String) (st : AppState) (sid uid : String)
    (hauth : adminGate token verify st.users = .ok uid)
    (hwfS : ∀ e ∈ st.subjects, e.1 = "subjects:" ++ e.2.id)
    (hwfW : ∀ e ∈ st.weeks, strPre ("weeks:" ++ sid ++ ":") e.1 = true →
      e.1 = weekKey sid e.2.id) :
    (deleteAdminSubjects token verify sid st).1 = 200 ∧
    kvGet (deleteAdminSubjects token verify sid st).2.subjects
      ("subjects:" ++ sid) = none ∧
    (∀ subj ∈ getSubjects (deleteAdminSubjects token verify sid st).2,
      subj.id ≠ sid) ∧
    kvScan (deleteAdminSubjects token verify sid st).2.weeks
      ("weeks:" ++ sid ++ ":") = [] ∧
    getWeeksHandler sid (deleteAdminSubjects token verify sid st).2 = [] ∧
    studentLoadWeeks sid (deleteAdminSubjects token verify sid st).2 = [] := by
  have hsub : (deleteAdminSubjects token verify sid st).2.subjects =
      kvDel st.subjects ("subjects:" ++ sid) := by
    simp [deleteAdminSubjects, hauth]
  have hwk : (deleteAdminSubjects token verify sid st).2.weeks =
      (kvScan st.weeks ("weeks:" ++ sid ++ ":")).foldl
        (fun ws w => kvDel ws (weekKey sid w.id)) st.weeks := by
    simp [deleteAdminSubjects, hauth]
  have hscan : kvScan (deleteAdminSubjects token verify sid st).2.weeks
      ("weeks:" ++ sid ++ ":") = [] := by
    rw [hwk, kvScan, List.map_eq_nil_iff, List.filter_eq_nil_iff]
    intro e he hpre
    rcases (mem_foldl_kvDel sid _ st.weeks e).1 he with ⟨hmem, hall⟩
    have hkey := hwfW e hmem hpre
    have hin : e.2 ∈ kvScan st.weeks ("weeks:" ++ sid ++ ":") := by
      refine (mem_kvScan _ _ _).2 ⟨e.1, ?_, hpre⟩
      simpa using hmem
    exact hall e.2 hin hkey
  refine ⟨by simp [deleteAdminSubjects, hauth], ?_, ?_, hscan, ?_, ?_⟩
  · rw [hsub]
    exact kvGet_kvDel_self _ _
  · intro subj hm heq
    rw [getSubjects, hsub] at hm
    rcases (mem_kvScan _ _ _).1 hm with ⟨k, hk, -⟩
    rcases (mem_kvDel _ _ _).1 hk with ⟨hmem, hne⟩
    have := hwfS (k, subj) hmem
    simp only at this
    exact hne (by rw [this, heq])
  · rw [getWeeksHandler, hscan]
    rfl
  · rw [studentLoadWeeks, getWeeksHandler, hscan]
    rfl

/-- `deleteSubject_cascades` instantiated: deleting subject `s1` from the
concrete store (two weeks stored under it) empties both the subject entry
and `weeks:s1:`. -/
theorem deleteSubject_cascades_witness :
    kvGet (deleteAdminSubjects (some "tok") vfy0 "s1" st0).2.subjects
      "subjects:s1" = none ∧
    kvScan (deleteAdminSubjects (some "tok") vfy0 "s1" st0).2.weeks
      "weeks:s1:" = [] ∧
    getWeeksHandler "s1" (deleteAdminSubjects (some "tok") vfy0 "s1"
      st0).2 = [] := by
  obtain ⟨-, hget, -, hscan, hlist, -⟩ :=
    deleteSubject_cascades (some "tok") vfy0 st0 "s1" "u1"
      (by decide) (by decide) (by decide)
  exact ⟨hget, hscan, hlist⟩

/-- `updateWeek_keeps_storage_key` instantiated: re-pointing the concrete
week `w1` at subject `s9` keeps it stored under `weeks:s1:w1` with its
`subjectId` field now `s9`, and `weeks:s9:` stays empty. -/
theorem updateWeek_keeps_storage_key_witness :
    kvGet (putAdminWeeks (some "tok") vfy0 "w1"
        { emptyUpdate with subjectId := some "s9" } st0).2.weeks
      (weekKey "s1" "w1") =
      some (mergeWeek demoWeek1 { emptyUpdate with subjectId := some "s9" }) ∧
    (mergeWeek demoWeek1
      { emptyUpdate with subjectId := some "s9" }).subjectId = "s9" ∧
    kvScan (putAdminWeeks (some "tok") vfy0 "w1"
        { emptyUpdate with subjectId := some "s9" } st0).2.weeks
      "weeks:s9:" = kvScan st0.weeks "weeks:s9:" := by
  obtain ⟨-, hget, hsid, -, hscan⟩ :=
    updateWeek_keeps_storage_key (some "tok") vfy0 st0 "s1" "s9" "w1" "u1"
      demoWeek1 { emptyUpdate with subjectId := some "s9" }
      (by decide) (by decide) (by decide) (by decide) (by decide)
  exact ⟨hget, hsid, hscan⟩

/-! ### Toggle-publish lemmas -/

/-- A found week reduces `PUT /admin/weeks/:id` to one store write of the
merged record. -/
theorem putAdminWeeks_found_eq (token : Option String)
    (verify : String → Option String) (st : AppState)
    (wid uid : String) (u : WeekUpdate) (w : Week)
    (hauth : adminGate token verify st.users = .ok uid)
    (hfind : (kvScan st.weeks "weeks:").find? (fun x => x.id == wid) =
      some w) :
    putAdminWeeks token verify wid u st =
      (200, setWeek st (weekKey w.subjectId wid) (mergeWeek w u)) := by
  simp [putAdminWeeks, hauth, hfind, setWeek]

theorem strPre_weekKey (sid wid : String) :
    strPre "weeks:" (weekKey sid wid) = true := by
  rw [weekKey, String.append_assoc, String.append_assoc]
  exact strPre_append "weeks:" _

/-- The scan-then-find lookup of the PUT handler locates the week appended
last when no other stored week carries the addressed id. -/
theorem find_week_in_append (ws : KV Week) (K wid : String) (w : Week)
    (hid : ∀ v ∈ kvScan ws "weeks:", v.id ≠ wid)
    (hK : strPre "weeks:" K = true) (hw : w.id = wid) :
    (kvScan (ws ++ [(K, w)]) "weeks:").find? (fun x => x.id == wid) =
      some w := by
  rw [kvScan_append, List.find?_append]
  have hnone : (kvScan ws "weeks:").find? (fun x => x.id == wid) = none := by
    rw [List.find?_eq_none]
    intro x hx
    simpa using hid x hx
  rw [hnone]
  simp [kvScan, hK, List.find?, hw]

/-- Sending `{ ...week, published: !week.published }` through the shallow
merge flips exactly the published flag. -/
theorem mergeWeek_toggleBody (w : Week) :
    mergeWeek w (toggleBody w) = { w with published := !w.published } := by
  cases hd : w.description <;> simp [mergeWeek, toggleBody, hd]

/-- Every week in the student listing is published. -/
theorem published_of_mem_studentLoadWeeks (sid : String) (st : AppState)
    (v : Week) (h : v ∈ studentLoadWeeks sid st) : v.published = true := by
  rw [studentLoadWeeks, mem_sortWeeks] at h
  simpa using (List.mem_filter.1 h).2

/-- A published week in the subject's namespace is in the student
listing. -/
theorem mem_studentLoadWeeks_of (sid : String) (st : AppState) (v : Week)
    (hmem : v ∈ kvScan st.weeks ("weeks:" ++ sid ++ ":"))
    (hpubv : v.published = true) : v ∈ studentLoadWeeks sid st := by
  rw [studentLoadWeeks, mem_sortWeeks]
  refine List.mem_filter.2 ⟨?_, by simp [hpubv]⟩
  rw [getWeeksHandler, mem_sortWeeks]
  exact hmem

/-- C4: a week created with `published = false` is absent from the
student-filtered listing (the server returns the list unfiltered and
`StudentDashboard.loadWeeks` keeps only `published == true`); after one
`togglePublish` it appears there; toggling twice restores the stored week
and the weeks store exactly, so toggling is an involution on the published
flag. -/
theorem togglePublish_involution (token : Option String)
    (verify : String → Option String) (st : AppState) (form : WeekForm)
    (sid weekId now uid : String)
    (hauth : adminGate token verify st.users = .ok uid)
    (hsid : sid ≠ "") (htitle : form.title ≠ "")
    (hnum : form.weekNumber ≠ 0)
    (hpub : form.published = false)
    (hfresh : ∀ e ∈ st.weeks, e.1 ≠ weekKey sid weekId)
    (hid : ∀ v ∈ kvScan st.weeks "weeks:", v.id ≠ weekId) :
    ∃ st1 st2 st3 : AppState, ∃ w1 : Week,
      postAdminWeeks token verify (buildWeekData form sid) weekId now st =
        (200, st1) ∧
      kvGet st1.weeks (weekKey sid weekId) = some w1 ∧
      w1.published = false ∧
      w1 ∉ studentLoadWeeks sid st1 ∧
      putAdminWeeks token verify weekId (toggleBody w1) st1 = (200, st2) ∧
      kvGet st2.weeks (weekKey sid weekId) =
        some { w1 with published := true } ∧
      { w1 with published := true } ∈ studentLoadWeeks sid st2 ∧
      putAdminWeeks token verify weekId
        (toggleBody { w1 with published := true }) st2 = (200, st3) ∧
      st3.weeks = st1.weeks ∧
      kvGet st3.weeks (weekKey sid weekId) = some w1 ∧
      w1 ∉ studentLoadWeeks sid st3 := by
  have hw1pub : (formWeek form sid weekId now).published = false := hpub
  have hmerge1 : mergeWeek (formWeek form sid weekId now)
      (toggleBody (formWeek form sid weekId now)) =
      { formWeek form sid weekId now with published := true } := by
    rw [mergeWeek_toggleBody, hw1pub]
    rfl
  have hmerge2 : mergeWeek
      { formWeek form sid weekId now with published := true }
      (toggleBody { formWeek form sid weekId now with published := true }) =
      formWeek form sid weekId now := by
    rw [mergeWeek_toggleBody]
    show ({ formWeek form sid weekId now with published := false } : Week) =
      formWeek form sid weekId now
    rw [← hpub]
    rfl
  have hst1w : (setWeek st (weekKey sid weekId)
      (formWeek form sid weekId now)).weeks =
      st.weeks ++ [(weekKey sid weekId, formWeek form sid weekId now)] :=
    kvSet_fresh _ _ _ hfresh
  have hfind1 : (kvScan (setWeek st (weekKey sid weekId)
        (formWeek form sid weekId now)).weeks "weeks:").find?
      (fun x => x.id == weekId) = some (formWeek form sid weekId now) := by
    rw [hst1w]
    exact find_week_in_append st.weeks _ _ _ hid (strPre_weekKey sid weekId)
      rfl
  have h1 := postAdminWeeks_form_eq token verify st form sid weekId now uid
    hauth hsid htitle hnum
  have h2 := putAdminWeeks_found_eq token verify
    (setWeek st (weekKey sid weekId) (formWeek form sid weekId now))
    weekId uid (toggleBody (formWeek form sid weekId now))
    (formWeek form sid weekId now) hauth hfind1
  rw [hmerge1] at h2
  have hst2w : (setWeek (setWeek st (weekKey sid weekId)
        (formWeek form sid weekId now)) (weekKey sid weekId)
      { formWeek form sid weekId now with published := true }).weeks =
      st.weeks ++ [(weekKey sid weekId,
        { formWeek form sid weekId now with published := true })] := by
    show kvSet (setWeek st (weekKey sid weekId)
      (formWeek form sid weekId now)).weeks _ _ = _
    rw [hst1w]
    exact kvSet_append_last _ _ _ _ hfresh
  have hfind2 : (kvScan (setWeek (setWeek st (weekKey sid weekId)
        (formWeek form sid weekId now)) (weekKey sid weekId)
      { formWeek form sid weekId now with published := true }).weeks
      "weeks:").find? (fun x => x.id == weekId) =
      some { formWeek form sid weekId now with published := true } := by
    rw [hst2w]
    exact find_week_in_append st.weeks _ _ _ hid (strPre_weekKey sid weekId)
      rfl
  have h3 := putAdminWeeks_found_eq token verify
    (setWeek (setWeek st (weekKey sid weekId)
      (formWeek form sid weekId now)) (weekKey sid weekId)
      { formWeek form sid weekId now with published := true })
    weekId uid
    (toggleBody { formWeek form sid weekId now with published := true })
    { formWeek form sid weekId now with published := true } hauth hfind2
  rw [hmerge2] at h3
  have hst3w : (setWeek (setWeek (setWeek st (weekKey sid weekId)
        (formWeek form sid weekId now)) (weekKey sid weekId)
      { formWeek form sid weekId now with published := true })
      (weekKey sid weekId) (formWeek form sid weekId now)).weeks =
      st.weeks ++ [(weekKey sid weekId, formWeek form sid weekId now)] := by
    show kvSet (setWeek (setWeek st (weekKey sid weekId)
      (formWeek form sid weekId now)) (weekKey sid weekId)
      { formWeek form sid weekId now with published := true }).weeks _ _ = _
    rw [hst2w]
    exact kvSet_append_last _ _ _ _ hfresh
  refine ⟨setWeek st (weekKey sid weekId) (formWeek form sid weekId now),
    setWeek (setWeek st (weekKey sid weekId)
      (formWeek form sid weekId now)) (weekKey sid weekId)
      { formWeek form sid weekId now with published := true },
    setWeek (setWeek (setWeek st (weekKey sid weekId)
      (formWeek form sid weekId now)) (weekKey sid weekId)
      { formWeek form sid weekId now with published := true })
      (weekKey sid weekId) (formWeek form sid weekId now),
    formWeek form sid weekId now,
    h1, kvGet_kvSet_self _ _ _, hw1pub, ?_, h2, kvGet_kvSet_self _ _ _,
    ?_, h3, ?_, kvGet_kvSet_self _ _ _, ?_⟩
  · intro hmem
    have := published_of_mem_studentLoadWeeks sid _ _ hmem
    rw [hw1pub] at this
    exact Bool.false_ne_true this
  · refine mem_studentLoadWeeks_of sid _ _ ?_ rfl
    refine (mem_kvScan _ _ _).2 ⟨weekKey sid weekId, ?_,
      strPre_append ("weeks:" ++ sid ++ ":") weekId⟩
    rw [hst2w]
    exact List.mem_append_right _ (List.mem_singleton.2 rfl)
  · rw [hst3w, hst1w]
  · intro hmem
    have := published_of_mem_studentLoadWeeks sid _ _ hmem
    rw [hw1pub] at this
    exact Bool.false_ne_true this

/-- `togglePublish_involution` instantiated: creating a draft week `w9`
under `s1` in the concrete store, publishing it and unpublishing it again
restores the original weeks store. -/
theorem togglePublish_involution_witness :
    ∃ st1 st2 st3 : AppState, ∃ w1 : Week,
      postAdminWeeks (some "tok") vfy0
        (buildWeekData
          { weekNumber := 3, title := "Limits", description := "",
            published := false, videoLinks := [], audioLinks := [],
            pdfLinks := [], questions := [] } "s1") "w9" "t1" st0 =
        (200, st1) ∧
      kvGet st1.weeks (weekKey "s1" "w9") = some w1 ∧
      w1.published = false ∧
      w1 ∉ studentLoadWeeks "s1" st1 ∧
      putAdminWeeks (some "tok") vfy0 "w9" (toggleBody w1) st1 =
        (200, st2) ∧
      kvGet st2.weeks (weekKey "s1" "w9") =
        some { w1 with published := true } ∧
      { w1 with published := true } ∈ studentLoadWeeks "s1" st2 ∧
      putAdminWeeks (some "tok") vfy0 "w9"
        (toggleBody { w1 with published := true }) st2 = (200, st3) ∧
      st3.weeks = st1.weeks ∧
      kvGet st3.weeks (weekKey "s1" "w9") = some w1 ∧
      w1 ∉ studentLoadWeeks "s1" st3 :=
  togglePublish_involution (some "tok") vfy0 st0
    { weekNumber := 3, title := "Limits", description := "",
      published := false, videoLinks := [], audioLinks := [],
      pdfLinks := [], questions := [] }
    "s1" "w9" "t1" "u1" (by decide) (by decide) (by decide) (by decide)
    rfl (by decide) (by decide)

end WeekWise
